import Mathlib

/-
Verification of the univariate-polynomial library (src/polynomial.py and
src/exceptions.py) against its natural-language specification.

Coefficients are embedded as rationals: the source works with Python int and
float values, and every claim under verification only exercises exact
arithmetic.  A polynomial is represented by its coefficient list in ascending
order of degree, exactly as stored in the `coefficients` attribute.  The
display variable name has no effect on arithmetic or equality and is passed
explicitly where parsing or rendering needs it.

Python string primitives (`str.replace`, `str.split`, `float`, `int`,
`str` of a number) are modelled by fuel-based structural functions over the
character list of the string, so that every definition evaluates inside the
kernel.
-/

namespace Poly

/-- Decidable equality of fallible results, used to evaluate the embedded
operations on concrete inputs. -/
instance instDecEqExcept {ε α : Type} [DecidableEq ε] [DecidableEq α] :
    DecidableEq (Except ε α)
  | Except.error e, Except.error f =>
      if h : e = f then isTrue (by rw [h]) else isFalse (by intro hh; cases hh; exact h rfl)
  | Except.error _, Except.ok _ => isFalse (by intro hh; cases hh)
  | Except.ok _, Except.error _ => isFalse (by intro hh; cases hh)
  | Except.ok a, Except.ok b =>
      if h : a = b then isTrue (by rw [h]) else isFalse (by intro hh; cases hh; exact h rfl)

/-- Error taxonomy of src/exceptions.py, plus the two host-language failures
the source can surface: ValueError (from max() on an empty sequence) and
ZeroDivisionError (from scalar division by zero). -/
inductive PyErr where
  | parseError (term : String)
  | typeError (op : String) (typename : String)
  | domainError (msg : String)
  | valueError (msg : String)
  | zeroDivisionError
deriving DecidableEq, Repr

/-- Modelled from the spec: the helpers `_strip_leading_zeros` and `_clean`
called by `__init__` are not present under src/.  Per the spec, construction
"Strips trailing zero coefficients above degree 0 before storing", the
sequence is never empty, and the zero polynomial is stored as `[0]`. -/
def normalize (l : List ℚ) : List ℚ :=
  if (l.reverse.dropWhile (fun c => c == 0)).reverse = [] then [0]
  else (l.reverse.dropWhile (fun c => c == 0)).reverse

/-- Canonical-form invariant of the spec: the coefficient sequence is
non-empty, and its highest-index entry is nonzero unless the whole
polynomial is the single-element zero polynomial `[0]`. -/
@[reducible] def Invariant (l : List ℚ) : Prop :=
  l ≠ [] ∧ (l.getLast? = some 0 → l = [0])

/-- Scalar branch of `__eq__` (src/polynomial.py line 95): the comparison
performed is `self.coefficients[0] == other`. -/
def eqScalar (l : List ℚ) (s : ℚ) : Bool :=
  decide (l.getD 0 0 = s)

/-- Polynomial branch of `__eq__`: coefficient tuples compared for equality. -/
def eqPoly (l₁ l₂ : List ℚ) : Bool :=
  decide (l₁ = l₂)

/-- Scalar branch of `__add__`: `Polynomial(self.coefficients[0] + other,
*self.coefficients[1:])`.  The empty case is unreachable because coefficient
lists are never empty. -/
def addScalar (l : List ℚ) (s : ℚ) : List ℚ :=
  normalize (match l with
    | [] => []
    | c :: rest => (c + s) :: rest)

/-- Pad-and-zip step of the polynomial branch of `__add__`: the stable sort
`sorted([self, other], key=len)` makes `self` the shorter list on ties; the
shorter list is padded with `diff` zeros and zipped element-wise with the
longer one. -/
def padZip (self other : List ℚ) : List ℚ :=
  if self.length ≤ other.length then
    List.zipWith (· + ·) (self ++ List.replicate (other.length - self.length) 0) other
  else
    List.zipWith (· + ·) (other ++ List.replicate (self.length - other.length) 0) self

/-- Polynomial branch of `__add__` (src/polynomial.py lines 112-116). -/
def addPoly (self other : List ℚ) : List ℚ :=
  normalize (padZip self other)

/-- Negation `__neg__`: element-wise sign flip, then the constructor. -/
def negPoly (l : List ℚ) : List ℚ :=
  normalize (l.map (fun c => -c))

/-- Scalar branch of `__mul__`: every coefficient scaled. -/
def mulScalar (l : List ℚ) (s : ℚ) : List ℚ :=
  normalize (l.map (fun c => c * s))

/-- Polynomial branch of `__mul__` (src/polynomial.py lines 143-148): a
buffer of `len(self) + len(other) - 1` zeros is filled by the double loop
`new[i+j] += self[i] * other[j]`, then passed to the constructor. -/
def mulPoly (self other : List ℚ) : List ℚ :=
  normalize ((List.range self.length).foldl (fun acc i =>
    (List.range other.length).foldl (fun acc2 j =>
      acc2.set (i + j) (acc2.getD (i + j) 0 + self.getD i 0 * other.getD j 0)) acc)
    (List.replicate (self.length + other.length - 1) 0))

/-- Scalar division `__truediv__` (src/polynomial.py lines 161-162): each
coefficient is divided by the scalar.  Python true division raises
ZeroDivisionError on a zero divisor (for int and float operands alike), so
the first coefficient division aborts the comprehension whenever the
coefficient list is non-empty. -/
def truediv (l : List ℚ) (s : ℚ) : Except PyErr (List ℚ) :=
  if s = 0 ∧ l ≠ [] then .error .zeroDivisionError
  else .ok (normalize (l.map (fun c => c / s)))

/-- Exponent operand of `__pow__`: Python passes an arbitrary number, and the
source checks `isinstance(n, int)`; a non-integer operand is any float. -/
inductive PyNum where
  | int (n : ℤ)
  | float (q : ℚ)

/-- Loop of `__pow__` for a non-negative number of rounds: `result`
starts as `Polynomial(1)` and is multiplied by `self` once per round. -/
def powNat (l : List ℚ) (n : ℕ) : List ℚ :=
  (List.range n).foldl (fun acc _ => mulPoly acc l) (normalize [1])

/-- Exponentiation `__pow__` (src/polynomial.py lines 165-174): a negative or
non-integer exponent raises PolynomialDomainError, otherwise repeated
multiplication starting from the constant polynomial 1. -/
def pow (l : List ℚ) : PyNum → Except PyErr (List ℚ)
  | .int n =>
      if n < 0 then .error (.domainError "Cannot raise polynomial to negative power")
      else .ok (powNat l n.toNat)
  | .float _ => .error (.domainError "Cannot raise polynomial to negative power")

/-- Evaluation `evaluate`: the sum of `coefficients[i] * n ** i`. -/
def evaluate (l : List ℚ) (n : ℚ) : ℚ :=
  ((List.range l.length).map (fun i => l.getD i 0 * n ^ i)).sum

/-- Derivative (src/polynomial.py lines 188-195): a single-coefficient
polynomial differentiates to `Polynomial(0)`; otherwise the list
`[i * co for i, co in enumerate(coefficients)][1:]` is passed to the
constructor. -/
def derivative (l : List ℚ) : List ℚ :=
  if l.length = 1 then normalize [0]
  else normalize ((l.enum.map (fun p => (p.1 : ℚ) * p.2)).tail)

/-- Integral (src/polynomial.py lines 197-202): the optional constant is
prepended to `[coefficients[i] / (i + 1) for i in range(len(coefficients))]`. -/
def integral (l : List ℚ) (constant : ℚ) : List ℚ :=
  normalize (constant :: (List.range l.length).map (fun i => l.getD i 0 / ((i : ℚ) + 1)))

/-- Composition `compose`: `result` starts as `Polynomial(0)` and accumulates
`coefficients[i] * other ** i`; the reflected scalar product multiplies each
coefficient of `other ** i`. -/
def compose (self other : List ℚ) : List ℚ :=
  (List.range self.length).foldl
    (fun acc i => addPoly acc (mulScalar (powNat other i) (self.getD i 0)))
    (normalize [0])

/-- Construction from roots `from_roots`: the product of the monic linear
factors `Polynomial(-root, 1)`, starting from `Polynomial(1)`. -/
def fromRoots (roots : List ℚ) : List ℚ :=
  roots.foldl (fun acc r => mulPoly acc (normalize [-r, 1])) (normalize [1])

/-
Python string primitives, modelled over character lists with structural
fuel recursion (the fuel is the length of the scanned list, which bounds
the number of scanning steps, so the fuel-exhausted branches are
unreachable).
-/

/-- Scanning loop of Python `str.replace` with a non-empty pattern:
non-overlapping occurrences are replaced left to right and scanning resumes
after the replacement. -/
def chReplaceAux (pat rep : List Char) : ℕ → List Char → List Char
  | _, [] => []
  | 0, s => s
  | fuel + 1, c :: rest =>
    if pat.isPrefixOf (c :: rest) ∧ pat ≠ [] then
      rep ++ chReplaceAux pat rep fuel (rest.drop (pat.length - 1))
    else
      c :: chReplaceAux pat rep fuel rest

/-- Python `s.replace(pat, rep)` for a non-empty pattern (the source only
replaces the patterns `" "`, `"+-"`, `"-"` and `"_"`). -/
def strReplace (s pat rep : String) : String :=
  String.mk (chReplaceAux pat.data rep.data s.data.length s.data)

/-- Scanning loop of Python `str.split` with a non-empty separator: `acc`
holds the characters of the piece currently being built. -/
def chSplitAux (sep : List Char) : ℕ → List Char → List Char → List (List Char)
  | _, acc, [] => [acc]
  | 0, acc, s => [acc ++ s]
  | fuel + 1, acc, c :: rest =>
    if sep.isPrefixOf (c :: rest) ∧ sep ≠ [] then
      acc :: chSplitAux sep fuel [] (rest.drop (sep.length - 1))
    else
      chSplitAux sep fuel (acc ++ [c]) rest

/-- Python `s.split(sep)` for a non-empty separator. -/
def strSplitOn (s sep : String) : List String :=
  (chSplitAux sep.data s.data.length [] s.data).map (fun l => String.mk l)

/-- Python `s.startswith(p)`. -/
def strStartsWith (s p : String) : Bool :=
  p.data.isPrefixOf s.data

/-- Python membership test `c in s` for a single-character needle. -/
def strContainsChar (s : String) (c : Char) : Bool :=
  s.data.contains c

/-- Python `s[:-1]`. -/
def strDropLast (s : String) : String :=
  String.mk s.data.dropLast

/-- Numeric value of a list of decimal digit characters. -/
def digitsVal (l : List Char) : ℕ :=
  l.foldl (fun acc c => acc * 10 + (c.toNat - 48)) 0

/-- Unsigned part of Python `float()` on decimal literals: digits with an
optional fractional part, at least one digit overall.  Exponent notation,
inf/nan and digit-group underscores are accepted by Python but not modelled;
no claim exercises them. -/
def pyFloatCore (s : String) : Option ℚ :=
  match strSplitOn s "." with
  | [ip] =>
      if ip.data ≠ [] ∧ ip.data.all Char.isDigit then some (digitsVal ip.data : ℚ)
      else none
  | [ip, fp] =>
      if (ip.data ≠ [] ∨ fp.data ≠ []) ∧ ip.data.all Char.isDigit ∧ fp.data.all Char.isDigit then
        some ((digitsVal ip.data : ℚ) + (digitsVal fp.data : ℚ) / (10 : ℚ) ^ fp.data.length)
      else none
  | _ => none

/-- Python `float()` on decimal literals: an optional sign followed by the
unsigned form. -/
def pyFloat (s : String) : Option ℚ :=
  match s.data with
  | [] => none
  | c :: rest =>
      if c = '+' then pyFloatCore (String.mk rest)
      else if c = '-' then (pyFloatCore (String.mk rest)).map (fun q => -q)
      else pyFloatCore s

/-- Python `int()` on decimal literals: an optional sign followed by at least
one digit. -/
def pyInt (s : String) : Option ℤ :=
  match s.data with
  | [] => none
  | c :: rest =>
      if c = '+' then
        if rest ≠ [] ∧ rest.all Char.isDigit then some (digitsVal rest : ℤ) else none
      else if c = '-' then
        if rest ≠ [] ∧ rest.all Char.isDigit then some (-(digitsVal rest : ℤ)) else none
      else if (c :: rest).all Char.isDigit then some (digitsVal (c :: rest) : ℤ)
      else none

/-- Term parser `_is_valid_term` (src/polynomial.py lines 251-285), returning
`some (coefficient, exponent)` where the source returns a pair and `none`
where it returns `False`.  The replacement of `check[0]` by the int `1` or
`-1` before the later `float(check[0])` call is modelled by the option value
`coeff?`; the bare `except` around `term[0]` catching IndexError on an empty
term is the `[]` case. -/
def isValidTerm (term : String) (var : String) : Option (ℚ × ℤ) :=
  match pyFloat term with
  | some single => some (single, 0)
  | none =>
    match strSplitOn term (var ++ "^") with
    | [c0, c1] =>
        let coeff? : Option ℚ :=
          if c0 = "" then some 1 else if c0 = "-" then some (-1) else pyFloat c0
        match coeff?, pyInt c1 with
        | some c, some e => some (c, e)
        | _, _ => none
    | _ =>
        if strContainsChar term '^' then none
        else
          match term.data with
          | [] => none
          | c :: rest =>
              if c = '-' then
                if rest.length = 1 then some (-1, 1)
                else
                  match pyFloat (strDropLast (String.mk rest)) with
                  | some co => some (-co, 1)
                  | none => none
              else
                match pyFloat (strDropLast term) with
                | some co => some (co, 1)
                | none => none

/-- Lookup in the exponent-to-coefficient dict, modelled as an association
list. -/
def dictGet (d : List (ℤ × ℚ)) (e : ℤ) : Option ℚ :=
  (d.find? (fun p => p.1 == e)).map (fun p => p.2)

/-- Assignment `d[e] = c` on the association list (update in place if the
key exists, append otherwise). -/
def dictSet (d : List (ℤ × ℚ)) (e : ℤ) (c : ℚ) : List (ℤ × ℚ) :=
  if (d.find? (fun p => p.1 == e)).isSome then
    d.map (fun p => if p.1 == e then (p.1, c) else p)
  else d ++ [(e, c)]

/-- Accumulation step of `from_string`: `if coefficients.get(exponent):`
is a Python truthiness test, so a stored value of `0` is overwritten rather
than added to (which yields the same sum). -/
def dictAdd (d : List (ℤ × ℚ)) (e : ℤ) (c : ℚ) : List (ℤ × ℚ) :=
  match dictGet d e with
  | some v => if v ≠ 0 then dictSet d e (v + c) else dictSet d e c
  | none => dictSet d e c

/-- Python `max(coefficients)` over the dict keys; an empty dict raises
ValueError. -/
def dictMax (d : List (ℤ × ℚ)) : Option ℤ :=
  d.foldl (fun acc p => match acc with
    | none => some p.1
    | some m => some (max m p.1)) none

/-- Term loop of `from_string` (src/polynomial.py lines 235-243): the first
invalid term raises PolynomialParseError carrying that term text. -/
def parseTermsAux (var : String) : List (ℤ × ℚ) → List String → Except PyErr (List (ℤ × ℚ))
  | d, [] => .ok d
  | d, t :: ts =>
      match isValidTerm t var with
      | some (c, e) => parseTermsAux var (dictAdd d e c) ts
      | none => .error (.parseError t)

/-- Term loop of `from_string` started on the empty dict. -/
def parseTerms (ts : List String) (var : String) : Except PyErr (List (ℤ × ℚ)) :=
  parseTermsAux var [] ts

/-- Preprocessing of `from_string` (src/polynomial.py lines 230-232): a
leading minus gets an explicit zero term, whitespace is removed, and the
replace chain turns every minus into the uniform separator `+-`. -/
def signNormalize (s : String) : String :=
  let s1 := if strStartsWith s "-" then "0" ++ s else s
  strReplace (strReplace (strReplace (strReplace s1 " " "") "+-" "_") "-" "+-") "_" "+-"

/-- Signed raw terms of `from_string`: the preprocessed string split on `+`. -/
def termsOf (s : String) : List String :=
  strSplitOn (signNormalize s) "+"

/-- Final phase of `from_string` (src/polynomial.py lines 244-249): the
final coefficient list has `max(coefficients) + 1` slots (empty when that is
not positive), filled from the dict under the same truthiness test, and is
passed to the constructor. -/
def buildFromDict (d : List (ℤ × ℚ)) : Except PyErr (List ℚ) :=
  match dictMax d with
  | none => .error (.valueError "max arg is an empty sequence")
  | some degree =>
      .ok (normalize ((List.range (degree + 1).toNat).map (fun i =>
        match dictGet d (i : ℤ) with
        | some v => if v ≠ 0 then v else 0
        | none => 0)))

/-- String parser `from_string` (src/polynomial.py lines 226-249): parse the
signed terms, propagating the first PolynomialParseError, then build the
coefficient list. -/
def fromString (s : String) (var : String) : Except PyErr (List ℚ) :=
  match parseTerms (termsOf s) var with
  | .error e => .error e
  | .ok d => buildFromDict d

/-
Rendering.  Python `str` of an int is modelled digit by digit; `str` of a
non-integral float is not modelled (its branch renders `num/den`), and the
rendering claims are stated for integral coefficients only.
-/

/-- Decimal digits of a natural number, most significant first, with
structural fuel (a number has at most `n + 1` digits). -/
def natStrAux : ℕ → ℕ → String
  | 0, _ => ""
  | fuel + 1, n =>
      if n < 10 then String.mk [Nat.digitChar n]
      else natStrAux fuel (n / 10) ++ String.mk [Nat.digitChar (n % 10)]

/-- Python `str` of a non-negative int. -/
def natStr (n : ℕ) : String :=
  natStrAux (n + 1) n

/-- Python `str` of an int. -/
def intStr (k : ℤ) : String :=
  if k < 0 then "-" ++ natStr k.natAbs else natStr k.natAbs

/-- Python `str` of a polynomial coefficient.  The source stores ints or
floats; the integral case renders as the bare int.  The non-integral branch
is a placeholder (Python would render a float literal) and is exercised by
no claim. -/
def pyNumStr (q : ℚ) : String :=
  if q.den = 1 then intStr q.num else intStr q.num ++ "/" ++ natStr q.den

/-- Loop body of `__str__` (src/polynomial.py lines 59-75): the state is the
accumulated string and the `nonzero_found` flag. -/
def strStep (var : String) (acc : String × Bool) (ic : ℕ × ℚ) : String × Bool :=
  if ic.2 = 0 then acc
  else
    let plus :=
      if acc.2 = false then (if 0 ≤ ic.2 then "" else "-")
      else if 0 ≤ ic.2 then " + " else " - "
    let coefficient := if |ic.2| ≠ 1 ∨ ic.1 = 0 then pyNumStr |ic.2| else ""
    let piece :=
      if ic.1 = 0 then plus ++ coefficient
      else if ic.1 = 1 then plus ++ coefficient ++ var
      else plus ++ coefficient ++ var ++ "^" ++ natStr ic.1
    (acc.1 ++ piece, true)

/-- Rendering `__str__` (src/polynomial.py lines 53-76): the loop over
`range(len(coefficients))` with the final `result or "0"` fallback (an empty
result string is falsy in Python). -/
def pyStr (l : List ℚ) (var : String) : String :=
  if (l.enum.foldl (strStep var) ("", false)).1 = "" then "0"
  else (l.enum.foldl (strStep var) ("", false)).1

/-
Spec-side definitions, written from the words of the specification, to be
compared with the definitions translated from the source.
-/

/-- Spec-side description of polynomial addition: pad the shorter coefficient
sequence with trailing zeros to the longer length, then add element-wise. -/
def specPadAdd (p q : List ℚ) : List ℚ :=
  List.zipWith (· + ·) (p ++ List.replicate (max p.length q.length - p.length) 0)
    (q ++ List.replicate (max p.length q.length - q.length) 0)

/-- Spec-side repeated multiplication: `P ** n` as n-fold multiplication by
`P` starting from the constant polynomial 1. -/
def powRepeated (l : List ℚ) : ℕ → List ℚ
  | 0 => normalize [1]
  | n + 1 => mulPoly (powRepeated l n) l

/-- Spec-side rendering of one term: a degree-0 term prints its bare
magnitude, degree 1 prints the magnitude (omitted when exactly 1) followed by
the variable, and higher degrees append the caret and the degree. -/
def specTermStr (var : String) (i : ℕ) (mag : ℚ) : String :=
  if i = 0 then pyNumStr mag
  else if i = 1 then (if mag = 1 then "" else pyNumStr mag) ++ var
  else (if mag = 1 then "" else pyNumStr mag) ++ var ++ "^" ++ natStr i

/-- Spec-side separator of a subsequent term: the sign of the coefficient is
absorbed into the separator. -/
def sepStr (c : ℚ) : String :=
  if c < 0 then " - " else " + "

/-- Spec-side rendering of the terms that follow the first printed term. -/
def tailRender (var : String) : List (ℕ × ℚ) → String
  | [] => ""
  | jd :: rest => sepStr jd.2 ++ specTermStr var jd.1 |jd.2| ++ tailRender var rest

/-- Spec-side rendering: zero coefficients are skipped, terms appear from
lowest to highest degree, the first printed term has no leading sign when
positive and a bare minus when negative, every subsequent term absorbs its
sign into the separator, and the all-zero polynomial renders as "0". -/
def specStr (l : List ℚ) (var : String) : String :=
  match l.enum.filter (fun ic => ic.2 != 0) with
  | [] => "0"
  | ic :: rest =>
      (if ic.2 < 0 then "-" else "") ++ specTermStr var ic.1 |ic.2| ++ tailRender var rest

/-
Helper lemmas about normalization.
-/

theorem dropWhile_head?_false {p : ℚ → Bool} :
    ∀ {l : List ℚ} {a : ℚ}, (l.dropWhile p).head? = some a → p a = false := by
  intro l
  induction l with
  | nil => intro a h; simp [List.dropWhile] at h
  | cons x xs ih =>
      intro a h
      by_cases hp : p x
      · simp only [List.dropWhile, hp] at h
        exact ih h
      · simp only [List.dropWhile, hp, List.head?] at h
        cases h
        exact (Bool.not_eq_true _).mp hp

theorem normalize_invariant (l : List ℚ) : Invariant (normalize l) := by
  unfold normalize
  by_cases h : (l.reverse.dropWhile (fun c => c == 0)).reverse = []
  · rw [if_pos h]
    exact ⟨by simp, fun _ => rfl⟩
  · rw [if_neg h]
    refine ⟨h, fun hlast => ?_⟩
    exfalso
    rw [List.getLast?_eq_head?_reverse, List.reverse_reverse] at hlast
    have := dropWhile_head?_false hlast
    simp at this

theorem normalize_eq_self {l : List ℚ} (h : Invariant l) : normalize l = l := by
  obtain ⟨hne, hlast⟩ := h
  by_cases h0 : l = [0]
  · subst h0; decide
  · unfold normalize
    cases hrev : l.reverse with
    | nil => exact absurd (by simpa using congrArg List.reverse hrev) hne
    | cons a as =>
        have ha : l.getLast? = some a := by
          rw [List.getLast?_eq_head?_reverse, hrev]; rfl
        have hane : ¬(a = 0) := fun h0a => h0 (hlast (h0a ▸ ha))
        have habeq : (a == 0) = false := by simpa using hane
        have hdw : (a :: as).dropWhile (fun c => c == 0) = a :: as := by
          simp [List.dropWhile, habeq]
        have hback : (a :: as).reverse = l := by rw [← hrev, List.reverse_reverse]
        rw [hdw, hback, if_neg hne]

theorem normalize_idem (l : List ℚ) : normalize (normalize l) = normalize l :=
  normalize_eq_self (normalize_invariant l)

/-
Helper lemmas about addition.
-/

theorem padZip_eq_specPadAdd (p q : List ℚ) : padZip p q = specPadAdd p q := by
  unfold padZip specPadAdd
  by_cases h : p.length ≤ q.length
  · rw [if_pos h, Nat.max_eq_right h, Nat.sub_self, List.replicate_zero, List.append_nil]
  · have h' : q.length ≤ p.length := le_of_not_le h
    rw [if_neg h, Nat.max_eq_left h', Nat.sub_self, List.replicate_zero, List.append_nil]
    exact List.zipWith_comm_of_comm _ add_comm _ _

theorem specPadAdd_comm (p q : List ℚ) : specPadAdd p q = specPadAdd q p := by
  unfold specPadAdd
  rw [Nat.max_comm q.length p.length]
  exact List.zipWith_comm_of_comm _ add_comm _ _

theorem cons_head_tail_of_ne_nil {l : List ℚ} (h : l ≠ []) :
    l.headI :: l.tail = l := by
  cases l with
  | nil => exact absurd rfl h
  | cons a as => rfl

/-
Helper lemmas about the pow loop and invariant preservation under folds.
-/

theorem powNat_eq_powRepeated (l : List ℚ) : ∀ n : ℕ, powNat l n = powRepeated l n := by
  intro n
  induction n with
  | zero => rfl
  | succ k ih =>
      unfold powNat at ih ⊢
      rw [List.range_succ, List.foldl_append, ih]
      rfl

theorem foldl_invariant {β : Type} (f : List ℚ → β → List ℚ)
    (hf : ∀ acc b, Invariant (f acc b)) :
    ∀ (l : List β) (init : List ℚ), Invariant init → Invariant (l.foldl f init) := by
  intro l
  induction l with
  | nil => intro init h; exact h
  | cons b bs ih => intro init h; exact ih _ (hf init b)

/-
Claims.
-/

/-- C1: the claim states that a polynomial equals a bare scalar iff it is a
constant (degree 0) polynomial whose sole coefficient equals that scalar, so
that `Polynomial(5, 1) == 5` is false.  The scalar branch of `__eq__`
compares only the degree-0 coefficient, so `Polynomial(5, 1) == 5` evaluates
to True on the code even though `Polynomial(5, 1)` is a distinct,
non-constant polynomial: the code contradicts the claim (and testable
property 12 of the spec) at this input. -/
theorem claimC1_eq_scalar_code_bug :
    eqScalar (normalize [5, 1]) 5 = true ∧
    eqScalar (normalize [5]) 5 = true ∧
    normalize [5, 1] ≠ normalize [5] := by
  refine ⟨?_, ?_, ?_⟩ <;> decide

/-- C2 counterexample: the claim states that `P / 0` propagates
infinity/NaN into the result coefficients rather than raising.  Python true
division by a zero scalar raises ZeroDivisionError (for int and float
operands alike), so `Polynomial(5) / 0` raises instead of producing
coefficients. -/
theorem claimC2_counterexample :
    truediv (normalize [5]) 0 = .error .zeroDivisionError := by
  decide

/-- C2 amended: dividing a polynomial by the scalar 0 raises
ZeroDivisionError (Python true-division semantics, not special-cased by the
polynomial code), while division by a nonzero scalar divides every
coefficient and renormalizes. -/
theorem claimC2_amended :
    (∀ l : List ℚ, l ≠ [] → truediv l 0 = .error .zeroDivisionError) ∧
    (∀ (l : List ℚ) (s : ℚ), s ≠ 0 →
      truediv l s = .ok (normalize (l.map (fun c => c / s)))) := by
  constructor
  · intro l hl
    unfold truediv
    rw [if_pos ⟨rfl, hl⟩]
  · intro l s hs
    unfold truediv
    rw [if_neg (fun hc => hs hc.1)]

theorem claimC2_witness :
    truediv ([5] : List ℚ) 0 = .error .zeroDivisionError ∧
    truediv ([4] : List ℚ) 2 = .ok (normalize ([4].map (fun c => c / 2))) :=
  ⟨claimC2_amended.1 [5] (by decide), claimC2_amended.2 [4] 2 (by decide)⟩

/-- C3: the claim states that a bare variable term parses to coefficient 1
at exponent 1, so that `from_string("x")` succeeds as `Polynomial(0, 1)`.
In `_is_valid_term` the coefficient of a caret-free term is taken as
`float(term[:-1])`, which fails on the empty string left by the bare term
"x", while the sign-only case "-x" is special-cased to (-1, 1) and an
explicit coefficient as in "3x" works; `from_string("x")` therefore raises
PolynomialParseError instead of succeeding, contradicting the claim at this
input while confirming its sign-only and explicit-coefficient parts. -/
theorem claimC3_bare_var_code_bug :
    fromString "x" "x" = .error (.parseError "x") ∧
    isValidTerm "x" "x" = none ∧
    isValidTerm "-x" "x" = some (-1, 1) ∧
    isValidTerm "3x" "x" = some (3, 1) := by
  refine ⟨?_, ?_, ?_, ?_⟩ <;> with_unfolding_all decide

/-- C4: polynomial addition pads the shorter coefficient sequence with
trailing zeros to the longer length, adds element-wise and renormalizes;
consequently addition of polynomials is commutative and adding the scalar 0
returns an equal polynomial. -/
theorem claimC4_addition :
    (∀ p q : List ℚ, addPoly p q = normalize (specPadAdd p q)) ∧
    (∀ p q : List ℚ, eqPoly (addPoly p q) (addPoly q p) = true) ∧
    (∀ p : List ℚ, eqPoly (addScalar (normalize p) 0) (normalize p) = true) := by
  refine ⟨?_, ?_, ?_⟩
  · intro p q
    unfold addPoly
    rw [padZip_eq_specPadAdd]
  · intro p q
    unfold eqPoly addPoly
    rw [padZip_eq_specPadAdd, padZip_eq_specPadAdd, specPadAdd_comm]
    simp
  · intro p
    unfold eqPoly addScalar
    have hne := (normalize_invariant p).1
    cases hn : normalize p with
    | nil => exact absurd hn hne
    | cons c rest =>
        simp only [add_zero]
        rw [← hn, normalize_idem]
        simp

/-- C8: exponentiation by a non-negative integer is repeated multiplication
by the base starting from the constant polynomial 1 (so the zero exponent
yields `Polynomial(1)` for every base), and a negative or non-integer
exponent raises PolynomialDomainError, as for `Polynomial(1, 1) ** -1`. -/
theorem claimC8_pow :
    (∀ (l : List ℚ) (n : ℤ), 0 ≤ n → pow l (.int n) = .ok (powRepeated l n.toNat)) ∧
    (∀ l : List ℚ, pow l (.int 0) = .ok (normalize [1])) ∧
    (∀ (l : List ℚ) (n : ℤ), n < 0 →
      pow l (.int n) = .error (.domainError "Cannot raise polynomial to negative power")) ∧
    (∀ (l : List ℚ) (q : ℚ),
      pow l (.float q) = .error (.domainError "Cannot raise polynomial to negative power")) ∧
    pow (normalize [1, 1]) (.int (-1)) =
      .error (.domainError "Cannot raise polynomial to negative power") := by
  refine ⟨?_, ?_, ?_, ?_, ?_⟩
  · intro l n hn
    simp only [pow]
    rw [if_neg (not_lt.mpr hn), powNat_eq_powRepeated]
  · intro l
    rfl
  · intro l n hn
    simp only [pow]
    rw [if_pos hn]
  · intro l q
    rfl
  · rfl

theorem claimC8_pow_witness :
    pow ([1, 1] : List ℚ) (.int 2) = .ok (powRepeated [1, 1] (2 : ℤ).toNat) ∧
    pow ([1, 1] : List ℚ) (.int (-3)) =
      .error (.domainError "Cannot raise polynomial to negative power") :=
  ⟨claimC8_pow.1 [1, 1] 2 (by decide), claimC8_pow.2.2.1 [1, 1] (-3) (by decide)⟩

/-
Helper lemmas for the parser claims.
-/

theorem fromString_ok_invariant {s v : String} {r : List ℚ}
    (h : fromString s v = .ok r) : Invariant r := by
  unfold fromString at h
  split at h
  · cases h
  · unfold buildFromDict at h
    split at h
    · cases h
    · cases h
      exact normalize_invariant _

theorem parseTermsAux_error {var : String} :
    ∀ (ts : List String) (d : List (ℤ × ℚ)),
      (∃ t ∈ ts, isValidTerm t var = none) →
      ∃ t', t' ∈ ts ∧ isValidTerm t' var = none ∧
        parseTermsAux var d ts = .error (.parseError t') := by
  intro ts
  induction ts with
  | nil =>
      intro d h
      obtain ⟨t, ht, _⟩ := h
      cases ht
  | cons t ts ih =>
      intro d h
      cases hv : isValidTerm t var with
      | none =>
          refine ⟨t, List.mem_cons_self t ts, hv, ?_⟩
          unfold parseTermsAux
          rw [hv]
      | some ce =>
          obtain ⟨c, e⟩ := ce
          obtain ⟨u, hu, hnone⟩ := h
          have hu' : u ∈ ts := by
            cases List.mem_cons.mp hu with
            | inl he => rw [he, hv] at hnone; cases hnone
            | inr h2 => exact h2
          obtain ⟨t', ht', hn', heq⟩ := ih (dictAdd d e c) ⟨u, hu', hnone⟩
          refine ⟨t', List.mem_cons_of_mem _ ht', hn', ?_⟩
          unfold parseTermsAux
          rw [hv]
          exact heq

/-- C5: every polynomial produced by construction or by any successful
operation satisfies the canonical-form invariants: the coefficient sequence
is non-empty and its highest-index coefficient is nonzero unless the
polynomial is the single-element zero polynomial.  The conjuncts cover the
constructor and every Polynomial-returning operation of the source. -/
theorem claimC5_invariants :
    (∀ args : List ℚ, Invariant (normalize args)) ∧
    (∀ (l : List ℚ) (s : ℚ), Invariant (addScalar l s)) ∧
    (∀ p q : List ℚ, Invariant (addPoly p q)) ∧
    (∀ l : List ℚ, Invariant (negPoly l)) ∧
    (∀ (l : List ℚ) (s : ℚ), Invariant (mulScalar l s)) ∧
    (∀ p q : List ℚ, Invariant (mulPoly p q)) ∧
    (∀ (l : List ℚ) (s : ℚ) (r : List ℚ), truediv l s = .ok r → Invariant r) ∧
    (∀ (l : List ℚ) (n : PyNum) (r : List ℚ), pow l n = .ok r → Invariant r) ∧
    (∀ l : List ℚ, Invariant (derivative l)) ∧
    (∀ (l : List ℚ) (c : ℚ), Invariant (integral l c)) ∧
    (∀ p q : List ℚ, Invariant (compose p q)) ∧
    (∀ roots : List ℚ, Invariant (fromRoots roots)) ∧
    (∀ (s v : String) (r : List ℚ), fromString s v = .ok r → Invariant r) := by
  refine ⟨fun args => normalize_invariant _, fun l s => normalize_invariant _,
    fun p q => normalize_invariant _, fun l => normalize_invariant _,
    fun l s => normalize_invariant _, fun p q => normalize_invariant _,
    ?_, ?_, ?_, fun l c => normalize_invariant _, ?_, ?_,
    fun s v r h => fromString_ok_invariant h⟩
  · intro l s r h
    unfold truediv at h
    by_cases hc : s = 0 ∧ l ≠ []
    · rw [if_pos hc] at h; cases h
    · rw [if_neg hc] at h; cases h; exact normalize_invariant _
  · intro l n r h
    cases n with
    | int m =>
        simp only [pow] at h
        by_cases hm : m < 0
        · rw [if_pos hm] at h; cases h
        · rw [if_neg hm] at h
          cases h
          exact foldl_invariant _ (fun acc _ => normalize_invariant _) _ _
            (normalize_invariant [1])
    | float q => cases h
  · intro l
    unfold derivative
    split
    · exact normalize_invariant _
    · exact normalize_invariant _
  · intro p q
    exact foldl_invariant _ (fun acc i => normalize_invariant _) _ _
      (normalize_invariant [0])
  · intro roots
    exact foldl_invariant _ (fun acc r => normalize_invariant _) _ _
      (normalize_invariant [1])

theorem claimC5_witness :
    Invariant (normalize (([4] : List ℚ).map (fun c => c / 2))) :=
  claimC5_invariants.2.2.2.2.2.2.1 [4] 2 _ (by with_unfolding_all decide)

/-- C7: any term that does not parse as one of the accepted shapes aborts
parsing and fails with a ParseError carrying the offending raw term text (a
term of the split, sign-normalized expression); in particular
`from_string("x^^2")` fails with a ParseError naming "x^^2". -/
theorem claimC7_parse_abort :
    (fromString "x^^2" "x" = .error (.parseError "x^^2")) ∧
    (∀ (ts : List String) (var : String),
      (∃ t ∈ ts, isValidTerm t var = none) →
      ∃ t', t' ∈ ts ∧ isValidTerm t' var = none ∧
        parseTerms ts var = .error (.parseError t')) ∧
    (∀ (s var : String) (e : PyErr),
      parseTerms (termsOf s) var = .error e → fromString s var = .error e) := by
  refine ⟨?_, ?_, ?_⟩
  · with_unfolding_all decide
  · intro ts var h
    exact parseTermsAux_error ts [] h
  · intro s var e h
    unfold fromString
    rw [h]

theorem claimC7_witness :
    fromString "q" "x" = .error (.parseError "q") :=
  claimC7_parse_abort.2.2 "q" "x" (.parseError "q") (by with_unfolding_all decide)

/-- C6: for every polynomial (the normalized coefficient list of any
argument list), integrating with the default constant of integration 0 and
then differentiating returns an equal polynomial. -/
theorem claimC6_integral_derivative (args : List ℚ) :
    derivative (integral (normalize args) 0) = normalize args := by
  obtain ⟨hne, hlast⟩ := normalize_invariant args
  by_cases h0 : normalize args = [0]
  · rw [h0]
    with_unfolding_all decide
  · set l := normalize args with hl
    have hpos : 0 < l.length := List.length_pos.mpr hne
    obtain ⟨k, hk⟩ : ∃ k, l.length = k + 1 :=
      ⟨l.length - 1, (Nat.succ_pred_eq_of_pos hpos).symm⟩
    have hklt : k < l.length := by omega
    have hlastk : l.getLast? = l[k]? := by
      rw [List.getLast?_eq_getElem?, hk]
      norm_num
    have hc : l.getD k 0 ≠ 0 := by
      intro hz
      apply h0
      apply hlast
      rw [hlastk, List.getElem?_eq_getElem hklt, ← List.getD_eq_getElem l 0 hklt, hz]
    set m := (List.range l.length).map (fun i => l.getD i 0 / ((i : ℚ) + 1)) with hm
    have hmlen : m.length = l.length := by
      rw [hm, List.length_map, List.length_range]
    have hmk : m[k]? = some (l.getD k 0 / ((k : ℚ) + 1)) := by
      rw [hm]
      simp [List.getElem?_map, List.getElem?_range hklt]
    have hInv : Invariant (0 :: m) := by
      refine ⟨by simp, fun hz => ?_⟩
      exfalso
      rw [List.getLast?_eq_getElem?] at hz
      have hlen2 : (0 :: m).length - 1 = k + 1 := by
        simp [hmlen, hk]
      rw [hlen2, List.getElem?_cons_succ, hmk] at hz
      have hdiv : l.getD k 0 / ((k : ℚ) + 1) = 0 := Option.some.inj hz
      exact absurd hdiv (div_ne_zero hc (Nat.cast_add_one_ne_zero k))
    have hid : integral l 0 = 0 :: m := by
      unfold integral
      rw [← hm]
      exact normalize_eq_self hInv
    rw [hid]
    unfold derivative
    rw [if_neg (by simp [hmlen, hk] : ¬((0 :: m).length = 1))]
    rw [List.enum_cons, List.map_cons, List.tail_cons]
    have hE : (m.enumFrom 1).map (fun p => (p.1 : ℚ) * p.2) = l := by
      apply List.ext_getElem
      · rw [List.length_map, List.enumFrom_length, hmlen]
      · intro i h1 h2
        rw [List.getElem_map, List.getElem_enumFrom]
        have hilt : i < m.length := by
          rw [List.length_map, List.enumFrom_length] at h1
          exact h1
        have hmi : m[i] = l.getD i 0 / ((i : ℚ) + 1) := by
          simp only [hm]
          rw [List.getElem_map, List.getElem_range]
        simp only [hmi]
        rw [List.getD_eq_getElem l 0 h2]
        have hcast : ((1 + i : ℕ) : ℚ) = (i : ℚ) + 1 := by
          push_cast
          ring
        rw [hcast, mul_comm, div_mul_cancel₀ _ (Nat.cast_add_one_ne_zero i)]
    rw [hE]
    exact normalize_eq_self ⟨hne, hlast⟩

/-
Helper lemmas for the rendering claim.
-/

theorem str_ne_empty_of_data {s : String} (h : s.data ≠ []) : s ≠ "" :=
  fun he => h (by rw [he])

theorem append_ne_empty_right {s t : String} (h : t ≠ "") : s ++ t ≠ "" := by
  intro he
  have hd : s.data ++ t.data = [] := by
    rw [← String.data_append, he]
  exact h (String.ext (List.append_eq_nil.mp hd).2)

theorem append_ne_empty_left {s t : String} (h : s ≠ "") : s ++ t ≠ "" := by
  intro he
  have hd : s.data ++ t.data = [] := by
    rw [← String.data_append, he]
  exact h (String.ext (List.append_eq_nil.mp hd).1)

theorem natStr_ne_empty (n : ℕ) : natStr n ≠ "" := by
  unfold natStr natStrAux
  by_cases h : n < 10
  · rw [if_pos h]
    exact str_ne_empty_of_data (by simp)
  · rw [if_neg h]
    exact append_ne_empty_right (str_ne_empty_of_data (by simp))

theorem intStr_ne_empty (k : ℤ) : intStr k ≠ "" := by
  unfold intStr
  by_cases h : k < 0
  · rw [if_pos h]
    exact append_ne_empty_right (natStr_ne_empty _)
  · rw [if_neg h]
    exact natStr_ne_empty _

theorem pyNumStr_ne_empty (q : ℚ) : pyNumStr q ≠ "" := by
  unfold pyNumStr
  by_cases h : q.den = 1
  · rw [if_pos h]
    exact intStr_ne_empty _
  · rw [if_neg h]
    exact append_ne_empty_right (natStr_ne_empty _)

theorem specTermStr_ne_empty {var : String} (hv : var ≠ "") (i : ℕ) (mag : ℚ) :
    specTermStr var i mag ≠ "" := by
  unfold specTermStr
  by_cases h0 : i = 0
  · rw [if_pos h0]
    exact pyNumStr_ne_empty _
  · rw [if_neg h0]
    by_cases h1 : i = 1
    · rw [if_pos h1]
      exact append_ne_empty_right hv
    · rw [if_neg h1]
      exact append_ne_empty_right (natStr_ne_empty _)

theorem strStep_zero {var : String} (acc : String × Bool) (i : ℕ) (c : ℚ)
    (hc : c = 0) : strStep var acc (i, c) = acc := by
  simp [strStep, hc]

theorem strStep_true {var : String} (acc : String) (i : ℕ) (c : ℚ) (hc : c ≠ 0) :
    strStep var (acc, true) (i, c) =
      (acc ++ (sepStr c ++ specTermStr var i |c|), true) := by
  have hplus : (if 0 ≤ c then (" + " : String) else " - ") = sepStr c := by
    unfold sepStr
    rcases lt_or_le c 0 with hneg | hpos
    · rw [if_neg (not_le.mpr hneg), if_pos hneg]
    · rw [if_pos hpos, if_neg (not_lt.mpr hpos)]
  by_cases h0 : i = 0 <;> by_cases hi1 : i = 1 <;> by_cases habs : |c| = 1 <;>
    simp_all [strStep, specTermStr, String.append_assoc]

theorem strStep_false {var : String} (i : ℕ) (c : ℚ) (hc : c ≠ 0) :
    strStep var ("", false) (i, c) =
      ((if c < 0 then "-" else "") ++ specTermStr var i |c|, true) := by
  have hsign : (if 0 ≤ c then ("" : String) else "-") = (if c < 0 then "-" else "") := by
    rcases lt_or_le c 0 with hneg | hpos
    · rw [if_neg (not_le.mpr hneg), if_pos hneg]
    · rw [if_pos hpos, if_neg (not_lt.mpr hpos)]
  by_cases h0 : i = 0 <;> by_cases hi1 : i = 1 <;> by_cases habs : |c| = 1 <;>
    simp_all [strStep, specTermStr, String.append_assoc]

theorem foldl_strStep_true {var : String} :
    ∀ (ts : List (ℕ × ℚ)) (acc : String),
      ts.foldl (strStep var) (acc, true) =
        (acc ++ tailRender var (ts.filter (fun ic => ic.2 != 0)), true) := by
  intro ts
  induction ts with
  | nil =>
      intro acc
      simp [tailRender]
  | cons hd tl ih =>
      intro acc
      obtain ⟨i, c⟩ := hd
      rw [List.foldl_cons]
      by_cases hc : c = 0
      · rw [strStep_zero _ i c hc, ih]
        simp [List.filter_cons, hc]
      · rw [strStep_true acc i c hc, ih]
        simp [List.filter_cons, hc, tailRender, String.append_assoc]

theorem foldl_strStep_false {var : String} (ts : List (ℕ × ℚ)) :
    ts.foldl (strStep var) ("", false) =
      (match ts.filter (fun ic => ic.2 != 0) with
       | [] => ("", false)
       | ic :: rest =>
           ((if ic.2 < 0 then "-" else "") ++ specTermStr var ic.1 |ic.2| ++
             tailRender var rest, true)) := by
  induction ts with
  | nil => rfl
  | cons hd tl ih =>
      obtain ⟨i, c⟩ := hd
      rw [List.foldl_cons]
      by_cases hc : c = 0
      · rw [strStep_zero _ i c hc, ih]
        have hfil : ((i, c) :: tl).filter (fun ic => ic.2 != 0) =
            tl.filter (fun ic => ic.2 != 0) := by
          simp [List.filter_cons, hc]
        rw [hfil]
      · rw [strStep_false i c hc, foldl_strStep_true tl]
        have hfil : ((i, c) :: tl).filter (fun ic => ic.2 != 0) =
            (i, c) :: tl.filter (fun ic => ic.2 != 0) := by
          simp [List.filter_cons, hc]
        rw [hfil]

/-- C9: str renders the nonzero terms from lowest to highest degree, the
first printed term carrying a bare minus when negative and each subsequent
sign absorbed into a " + " or " - " separator, with a magnitude of exactly 1
omitted for degrees at least 1 but always shown at degree 0, and the
all-zero polynomial rendering as "0"; in particular Polynomial(2, -3, 1)
renders as "2 - 3x + x^2".  Stated for a non-empty variable name and
integral coefficients (the embedding only models Python number-to-string
conversion for ints). -/
theorem claimC9_str :
    (∀ (l : List ℚ) (var : String), var ≠ "" → (∀ c ∈ l, c.den = 1) →
      pyStr l var = specStr l var) ∧
    pyStr (normalize [2, -3, 1]) "x" = "2 - 3x + x^2" ∧
    pyStr (normalize [0, 0]) "x" = "0" := by
  refine ⟨?_, ?_, ?_⟩
  · intro l var hv _
    unfold pyStr specStr
    rw [foldl_strStep_false]
    cases hf : l.enum.filter (fun ic => ic.2 != 0) with
    | nil => rfl
    | cons ic rest =>
        have hne : (if ic.2 < 0 then "-" else "") ++ specTermStr var ic.1 |ic.2| ++
            tailRender var rest ≠ "" :=
          append_ne_empty_left (append_ne_empty_right (specTermStr_ne_empty hv _ _))
        rw [if_neg hne]
  · with_unfolding_all decide
  · with_unfolding_all decide

theorem claimC9_witness :
    pyStr [2, -3, 1] "x" = specStr [2, -3, 1] "x" :=
  claimC9_str.1 [2, -3, 1] "x" (by decide) (by with_unfolding_all decide)

/-- C10 counterexample: the claim states that inside `from_string` a term
with a negative exponent such as "x^-1" is accepted rather than rejected
with a ParseError.  The sign-normalization step rewrites every minus into
the separator `+-`, so the input "x^-1" splits into the terms "x^" and "-1"
and `from_string("x^-1")` fails with a ParseError naming "x^". -/
theorem claimC10_counterexample :
    fromString "x^-1" "x" = .error (.parseError "x^") := by
  with_unfolding_all decide

/-- C10 amended: `_is_valid_term` itself accepts a negative-exponent term,
returning coefficient 1.0 and the negative exponent for "x^-1"; but inside
`from_string` the sign normalization turns the minus into a term separator,
so "x^-1" becomes the terms "x^" and "-1" and parsing aborts with a
ParseError naming "x^" before any coefficient list is built. -/
theorem claimC10_amended :
    isValidTerm "x^-1" "x" = some (1, -1) ∧
    termsOf "x^-1" = ["x^", "-1"] ∧
    fromString "x^-1" "x" = .error (.parseError "x^") := by
  refine ⟨?_, ?_, ?_⟩ <;> with_unfolding_all decide

/-
Sanity checks of the embedding against hand-traced behavior of the source:
normalization of a padded list (spec testable property 1), the parse and
construct equivalence (spec testable property 7), the roots round-trip
expansion (spec testable property 6), the sign-normalization pipeline, and
the worked convolution.
-/

example : normalize [1, 0, 0] = [1] := by decide
example : normalize [] = [0] := by decide
example : mulPoly [-1, 1] [1, 1] = [-1, 0, 1] := by with_unfolding_all decide
example : strReplace "x^2-3x+2" "-" "+-" = "x^2+-3x+2" := by decide
example : termsOf "x^2 - 3x + 2" = ["x^2", "-3x", "2"] := by decide
example : fromString "x^2 - 3x + 2" "x" = .ok [2, -3, 1] := by
  with_unfolding_all decide
example : fromRoots [1, -1] = [-1, 0, 1] := by with_unfolding_all decide
example : evaluate (fromRoots [1, -1]) 1 = 0 := by with_unfolding_all decide
example : evaluate (fromRoots [1, -1]) (-1) = 0 := by with_unfolding_all decide
example : powNat [1, 1] 2 = [1, 2, 1] := by with_unfolding_all decide
example : compose [1, 0, 1] [0, 2] = [1, 0, 4] := by with_unfolding_all decide

end Poly
